import Mathlib

/-!
Verification development for the Plaques2Gallery web-scraping core.

The definitions below are a shallow embedding of the module
src/plaques2gallery/web_scraping.py (the maintained package module; the
top-level src/web_scrapping.py is its near-duplicate precursor and is not
imported by the package) together with the relevant constants from
src/plaques2gallery/config.py.

Modelling conventions:
- machine effects (HTTP fetches, page navigation) are oracles passed in as
  explicit function arguments;
- Python None-or-value results are Option;
- Python truthiness of a string is modelled as the string being nonempty,
  truthiness of bytes as the byte list being nonempty;
- bytes are List Nat; float bounding-box coordinates are modelled as
  rationals (the source never produces NaN boxes);
- Python str membership (needle in hay) is modelled by strIn;
- the one uncaught exception in the modelled code (IndexError on
  descriptor[-1] for an empty srcset token) is modelled as Option/Except
  failure.
-/

/-- Boolean test that the first character list is an initial segment of the
second, used to model Python substring search. -/
def listStartsWith : List Char → List Char → Bool
  | [], _ => true
  | _ :: _, [] => false
  | a :: as, b :: bs => a == b && listStartsWith as bs

/-- Model of the Python expression `needle in hay` on strings: the needle
occurs contiguously somewhere in the hay. -/
def strIn (needle hay : String) : Bool :=
  (hay.toList.tails.any fun t => listStartsWith needle.toList t)

/-- Model of the Python expression `int("".join(filter(str.isdigit, s)))`
restricted to ASCII digits: keep the digit characters of the token in order
and read them as a decimal numeral. -/
def pyIntOfDigits (s : String) : Nat :=
  (s.toList.filter Char.isDigit).foldl (fun n c => 10 * n + (c.toNat - 48)) 0

/-- Lexicographic comparison of character lists by code point, modelling
the Python string comparison used when the source compares heap tuples. -/
def listCharLt : List Char → List Char → Bool
  | [], [] => false
  | [], _ :: _ => true
  | _ :: _, [] => false
  | a :: as, b :: bs => a < b || (a == b && listCharLt as bs)

/-- Model of the Python expression `a <= b` on strings. -/
def pyStrLe (a b : String) : Bool :=
  a == b || listCharLt a.toList b.toList

/-- Model of the Python expression `s.startswith(pre)`. -/
def strStartsWith (s pre : String) : Bool :=
  listStartsWith pre.toList s.toList

/-- Model of the Python expression `s.split(";")[0]`: the characters before
the first semicolon. -/
def pySplitSemiHead (s : String) : String :=
  String.mk (s.toList.takeWhile fun c => !(c == ';'))

/-- Model of the Python expression `s.strip()`: drop leading and trailing
whitespace. -/
def pyStrip (l : List Char) : List Char :=
  ((l.dropWhile Char.isWhitespace).reverse.dropWhile Char.isWhitespace).reverse

/-- Model of the Python expression `s.split()` with no separator: the
maximal nonempty runs of non-whitespace characters, in order. -/
def pySplitWs (l : List Char) : List (List Char) :=
  let r := l.foldr
    (fun c acc =>
      if c.isWhitespace then
        if acc.1 = ([] : List Char) then acc else ([], acc.1 :: acc.2)
      else (c :: acc.1, acc.2))
    (([] : List Char), ([] : List (List Char)))
  if r.1 = [] then r.2 else r.1 :: r.2

/-- Model of the Python expression `s.rstrip(",")`: drop trailing commas. -/
def pyRstripComma (l : List Char) : List Char :=
  (l.reverse.dropWhile fun c => c == ',').reverse

/-! ## Retrieval and validation: download_image_from_url
(src/plaques2gallery/web_scraping.py lines 112-158) -/

/-- Outcome of one aiohttp GET, as observed by download_image_from_url:
either a response with a status code, a Content-Type header value (empty
string when the header is absent) and a body, or one of the two caught
exception classes (aiohttp.ClientError, TimeoutError). -/
inductive FetchResult
  | response (status : Nat) (contentType : String) (body : List Nat)
  | clientError
  | timeoutError

/-- Shallow embedding of download_image_from_url. The URL-resolution
function urljoin and the extension table mimetypes.guess_extension are
standard-library collaborators and are passed in abstractly; fetch gives
the network outcome for the resolved absolute URL. Returns
(image bytes, resolved URL, extension) componentwise as Options, with
(none, none, none) on every failure path, mirroring the source. -/
def download_image_from_url
    (urljoin : String → String → String)
    (guess_extension : String → Option String)
    (fetch : String → FetchResult)
    (url base_url : String) :
    Option (List Nat) × Option String × Option String :=
  let absolute_url := urljoin base_url url
  match fetch absolute_url with
  | .response status ct body =>
      if status = 200 ∧ strStartsWith ct "image/" = true then
        let content_type := pySplitSemiHead ct
        let extension := (guess_extension content_type).getD ".jpg"
        (some body, some absolute_url, some extension)
      else (none, none, none)
  | .clientError => (none, none, none)
  | .timeoutError => (none, none, none)

/-! ## Responsive-source resolver: the srcset branch of
extract_best_image_from_url (src/plaques2gallery/web_scraping.py
lines 182-213) -/

/-- Tokenization of a srcset attribute:
`[token.rstrip(",") for token in srcset.strip().split()]`.
Python split() with no argument splits on whitespace runs and drops empty
pieces. -/
def srcset_tokens (srcset : String) : List String :=
  (pySplitWs (pyStrip srcset.toList)).map fun t => String.mk (pyRstripComma t)

/-- The descriptor-pairing loop of extract_best_image_from_url: walk the
token list, pairing a URL token with the following descriptor token when
the descriptor ends in a w or x unit and has a digit before the unit; the
weight is the decimal number formed by the digit characters of the
descriptor. Returns none when the source would raise IndexError, namely
when `descriptor[-1]` is evaluated on an empty token. -/
def parse_srcset_pairs : List String → Option (List (String × Nat))
  | url :: descriptor :: rest =>
      match descriptor.toList.getLast? with
      | none => none
      | some last =>
          if (last == 'w' || last == 'x') && descriptor.toList.dropLast.any Char.isDigit then
            (parse_srcset_pairs rest).map fun ps => (url, pyIntOfDigits descriptor) :: ps
          else
            parse_srcset_pairs (descriptor :: rest)
  | _ => some []

/-- Comparison under which the source orders srcset candidates: the heap
holds (-value, url) tuples compared as Python tuples, so popping ascending
on that key is descending on the weight with ties broken by ascending URL
order. Here the pair carries (weight, url). -/
def heapKeyLe (a b : Nat × String) : Prop :=
  b.1 < a.1 ∨ (a.1 = b.1 ∧ pyStrLe a.2 b.2 = true)

instance : DecidableRel heapKeyLe := fun a b => by
  unfold heapKeyLe; infer_instance

/-- Order in which the weighted branch pops candidates off the max-heap:
`heapq.heapify` of the (-value, url) list followed by repeated heappop
yields exactly the list sorted ascending on the (-value, url) key. The key
order is total and antisymmetric, so the sorted sequence is unique and any
correct sort computes it. -/
def weighted_order (pairs : List (String × Nat)) : List (Nat × String) :=
  (pairs.map fun p => (p.2, p.1)).insertionSort heapKeyLe

/-- URLs of the weighted branch in attempt order. -/
def weighted_urls (pairs : List (String × Nat)) : List String :=
  (weighted_order pairs).map fun p => p.2

/-- One download-until-success loop over a list of candidate URLs, shared
by the weighted branch and the reverse fallback walk: attempt each URL in
order with the download oracle, stopping at the first result whose byte
content is truthy (nonempty). Returns the first success (if any) together
with the list of URLs for which a download was attempted. -/
def run_download_attempts (dl : String → Option (List Nat × String × String)) :
    List String → Option (List Nat × String × String) × List String
  | [] => (none, [])
  | u :: rest =>
      match dl u with
      | some r =>
          if r.1 ≠ [] then (some r, [u])
          else
            let t := run_download_attempts dl rest
            (t.1, u :: t.2)
      | none =>
          let t := run_download_attempts dl rest
          (t.1, u :: t.2)

/-- Boolean success test matching the `if img_bytes:` truthiness check of
the source. -/
def dlSucceeds (dl : String → Option (List Nat × String × String)) (u : String) : Bool :=
  match dl u with
  | some r => r.1 ≠ []
  | none => false

/-- The srcset branch of extract_best_image_from_url on an already
tokenized srcset value: pair up the tokens; if fewer than half the tokens
ended up in pairs, walk the raw token list in reverse attempting every
token containing a path separator; otherwise attempt the parsed pairs in
descending weight order. Except.error models the uncaught IndexError of
the pairing loop. -/
def srcset_phase_tokens (dl : String → Option (List Nat × String × String))
    (tokens : List String) :
    Except Unit (Option (List Nat × String × String) × List String) :=
  match parse_srcset_pairs tokens with
  | none => .error ()
  | some pairs =>
      if 2 * pairs.length < tokens.length then
        .ok (run_download_attempts dl (tokens.reverse.filter fun u => strIn "/" u))
      else
        .ok (run_download_attempts dl (weighted_urls pairs))

/-- The srcset branch of extract_best_image_from_url from the raw srcset
attribute value. -/
def srcset_phase (dl : String → Option (List Nat × String × String))
    (srcset : String) :
    Except Unit (Option (List Nat × String × String) × List String) :=
  srcset_phase_tokens dl (srcset_tokens srcset)

/-! ## Largest-candidate selector: get_img
(src/plaques2gallery/web_scraping.py lines 270-321) -/

/-- Bounding box of an image element as (width, height); float coordinates
are modelled as rationals. -/
abbrev Box := ℚ × ℚ

/-- The enumeration loop of get_img starting at document index i: each
element whose bounding box exists and has nonzero area contributes the heap
entry (area, index). -/
def candidatesFrom (i : Nat) : List (Option Box) → List (ℚ × Nat)
  | [] => []
  | none :: rest => candidatesFrom (i + 1) rest
  | some wh :: rest =>
      if wh.1 * wh.2 = 0 then candidatesFrom (i + 1) rest
      else (wh.1 * wh.2, i) :: candidatesFrom (i + 1) rest

/-- Heap entries built by get_img for a page given the bounding boxes of
its img elements in document order (none = element not laid out). -/
def get_img_candidates (boxes : List (Option Box)) : List (ℚ × Nat) :=
  candidatesFrom 0 boxes

/-- Strict comparison under which the source heap of (-area, i, element)
tuples is ordered: larger area first, then smaller document index. -/
def heapLt (a b : ℚ × Nat) : Prop :=
  b.1 < a.1 ∨ (a.1 = b.1 ∧ a.2 < b.2)

instance : DecidableRel heapLt := fun a b => by
  unfold heapLt; infer_instance

/-- The element `heap[0]` of the source heap: the minimum of the candidate
entries under the (-area, index) order, i.e. the entry of maximal area with
ties broken by the smallest document index. -/
def heapMin : List (ℚ × Nat) → Option (ℚ × Nat)
  | [] => none
  | x :: xs => some (xs.foldl (fun best c => if heapLt c best then c else best) x)

/-- Value of EXTRACTED_IMAGES_DIR in src/plaques2gallery/config.py. -/
def EXTRACTED_IMAGES_DIR : String := "extracted_images"

/-- Shallow embedding of get_img. The resolver call on the selected element
is the oracle resolve (indexed by document position of the element) and
convert_to_jpeg is the oracle convert; get_img selects the top heap entry,
resolves it, and on a fully truthy result converts and saves the image,
returning (saved path, resolved image URL); on every other path it returns
(none, none). -/
def get_img (resolve : Nat → Option (List Nat × String × String))
    (convert : List Nat → String → List Nat × String)
    (img_name : String)
    (boxes : List (Option Box)) : Option String × Option String :=
  match heapMin (get_img_candidates boxes) with
  | none => (none, none)
  | some entry =>
      match resolve entry.2 with
      | some r =>
          if r.1 ≠ [] ∧ r.2.1 ≠ "" ∧ r.2.2 ≠ "" then
            let c := convert r.1 r.2.2
            (some (EXTRACTED_IMAGES_DIR ++ "/" ++ img_name ++ c.2), some r.2.1)
          else (none, none)
      | none => (none, none)

/-! ## Tiered dispatcher: process_a_painting and its tier helpers
(src/plaques2gallery/web_scraping.py lines 330-550) -/

/-- Value of KNOWN_MUSEUMS in src/plaques2gallery/config.py, as an
association list in insertion order (Python dicts preserve it). -/
def KNOWN_MUSEUMS : List (String × String) := [
  ("mfa", "Museum of Fine Arts Boston"),
  ("artic", "The Art Institute of Chicago"),
  ("belvedere", "Austrian Gallery Belvedere"),
  ("metmuseum", "The Metropolitan Museum of Art"),
  ("nga", "The National Gallery of Art"),
  ("sfmoma", "San Francisco Museum of Modern Art (SFMOMA)"),
  ("guggenheim", "The Guggenheim Museum"),
  ("philamuseum", "The Philadelphia Museum of Art"),
  ("albertina", "Albertina Museum Wien"),
  ("harvardartmuseums", "The Harvard Art Museums"),
  ("leopoldmuseum", "The Leopold Museum"),
  ("museodelnovecento", "The Museo del Novecento"),
  ("moma", "Museum of Modern Art (MoMA)"),
  ("galleriaborghese", "The Galleria Borghese"),
  ("doriapamphilj", "Galleria Doria Pamphilji"),
  ("famsf", "The Fine Arts Museums of San Francisco"),
  ("noma", "The New Orleans Museum of Art (NOMA)"),
  ("sjmusart", "The San José Museum of Art"),
  ("bampfa", "Berkeley Art Museum and Pacific Film Archive (BAMPFA)"),
  ("si", "Smithsonian Museums")]

/-- First KNOWN_MUSEUMS entry whose domain keyword occurs in the URL,
mirroring the inner `for museum_domain, museum_name in KNOWN_MUSEUMS`
loops of the source. -/
def find_museum (url : String) : Option (String × String) :=
  KNOWN_MUSEUMS.find? fun p => strIn p.1 url

/-- Shallow embedding of the function detecting the museum location from
the URL list (source lines 330-348): the museum name of the first URL
containing a known keyword, otherwise the fixed label. -/
def detect_museum_from_urls (urls : List String) : String :=
  match urls.findSome? fun url => (find_museum url).map fun p => p.2 with
  | some name => name
  | none => "Unknown location"

/-- Tier 1 (source lines 351-371): attempt every URL containing the
substring wikipedia, in list order, via the page-extraction oracle ex
(one call = one page navigation). Returns
(first truthy success, invalid URLs accumulated, URLs navigated). -/
def try_wikipedia_urls (ex : String → Option (String × String)) :
    List String → Option (String × String) × List String × List String
  | [] => (none, [], [])
  | url :: rest =>
      if strIn "wikipedia" url then
        match ex url with
        | some r =>
            if r.1 ≠ "" then (some r, [], [url])
            else
              let t := try_wikipedia_urls ex rest
              (t.1, url :: t.2.1, url :: t.2.2)
        | none =>
            let t := try_wikipedia_urls ex rest
            (t.1, url :: t.2.1, url :: t.2.2)
      else try_wikipedia_urls ex rest

/-- Tier 2 (source lines 374-398): attempt every URL not yet invalidated
that contains a known museum keyword, in list order; a success also
reports the museum name matched from that URL. Returns
(success with museum name, updated invalid URLs, URLs navigated). -/
def try_museum_urls (ex : String → Option (String × String))
    (invalid : List String) :
    List String → Option (String × String × String) × List String × List String
  | [] => (none, invalid, [])
  | url :: rest =>
      if url ∈ invalid then try_museum_urls ex invalid rest
      else
        match find_museum url with
        | some m =>
            match ex url with
            | some r =>
                if r.1 ≠ "" then (some (r.1, r.2, m.2), invalid, [url])
                else
                  let t := try_museum_urls ex (invalid ++ [url]) rest
                  (t.1, t.2.1, url :: t.2.2)
            | none =>
                let t := try_museum_urls ex (invalid ++ [url]) rest
                (t.1, t.2.1, url :: t.2.2)
        | none => try_museum_urls ex invalid rest

/-- Tier 3 (source lines 401-414): attempt every URL not yet invalidated,
in list order. Returns (first truthy success, URLs navigated). -/
def try_remaining_urls (ex : String → Option (String × String))
    (invalid : List String) :
    List String → Option (String × String) × List String
  | [] => (none, [])
  | url :: rest =>
      if url ∈ invalid then try_remaining_urls ex invalid rest
      else
        match ex url with
        | some r =>
            if r.1 ≠ "" then (some r, [url])
            else
              let t := try_remaining_urls ex invalid rest
              (t.1, url :: t.2)
        | none =>
            let t := try_remaining_urls ex invalid rest
            (t.1, url :: t.2)

/-- The urls argument of process_a_painting: either the upstream error
string or a list of candidate URLs. -/
inductive UrlsInput
  | errorString (s : String)
  | urlList (urls : List String)

/-- Second slot of the result 5-tuple: a saved image path string on
success, or the literal empty list written on failure. -/
inductive ImgField
  | path (p : String)
  | empty
deriving DecidableEq

/-- The 5-tuple written into cur_batch_results for one painting. -/
structure BatchResult where
  plaque : String
  img : ImgField
  srcUrl : String
  location : String
  imgUrl : String
deriving DecidableEq

/-- The fixed record written by the entry guard when the URL input is
empty or an error string. -/
def no_urls_record (plaque : String) : BatchResult :=
  ⟨plaque, .empty, "No image was downloaded (no urls were found).",
    "Unknown location", "No url to download the image was located."⟩

/-- Shallow embedding of process_a_painting. The oracle ex stands for
extract_main_image_from_page restricted to this painting (per URL it
yields either (image path, image URL) or failure); plaque is the value of
cur_batch_names_to_imgs for this painting. Returns the record written
into cur_batch_results together with the full list of URLs navigated, in
order. -/
def process_a_painting (ex : String → Option (String × String))
    (plaque : String) : UrlsInput → BatchResult × List String
  | .errorString _ => (no_urls_record plaque, [])
  | .urlList [] => (no_urls_record plaque, [])
  | .urlList (u0 :: rest) =>
      let urls := u0 :: rest
      let painting_location := detect_museum_from_urls urls
      let t1 := try_wikipedia_urls ex urls
      match t1.1 with
      | some r => (⟨plaque, .path r.1, u0, painting_location, r.2⟩, t1.2.2)
      | none =>
          let t2 := try_museum_urls ex t1.2.1 urls
          match t2.1 with
          | some r =>
              (⟨plaque, .path r.1, u0, r.2.2, r.2.1⟩, t1.2.2 ++ t2.2.2)
          | none =>
              let t3 := try_remaining_urls ex t2.2.1 urls
              match t3.1 with
              | some r =>
                  (⟨plaque, .path r.1, u0, painting_location, r.2⟩,
                    t1.2.2 ++ t2.2.2 ++ t3.2)
              | none =>
                  (⟨plaque, .empty,
                    "No image was downloaded even though some urls were found.",
                    painting_location, ""⟩, t1.2.2 ++ t2.2.2 ++ t3.2)

/-! ## Helper lemmas -/

/-- Each parsed pair consumes two tokens, so the pair count never exceeds
half the token count. -/
theorem parse_srcset_pairs_le (l : List String) :
    ∀ ps, parse_srcset_pairs l = some ps → 2 * ps.length ≤ l.length := by
  induction l using parse_srcset_pairs.induct with
  | case1 url descriptor rest hlast =>
      intro ps h
      simp only [parse_srcset_pairs, hlast] at h
      exact Option.noConfusion h
  | case2 url descriptor rest last hlast hacc ih =>
      intro ps h
      simp only [parse_srcset_pairs, hlast, if_pos hacc, Option.map_eq_some'] at h
      obtain ⟨ps', hps', rfl⟩ := h
      have := ih ps' hps'
      simp only [List.length_cons]
      omega
  | case3 url descriptor rest last hlast hacc ih =>
      intro ps h
      simp only [parse_srcset_pairs, hlast, if_neg hacc] at h
      have := ih ps h
      simp only [List.length_cons] at this ⊢
      omega
  | case4 t hshape =>
      intro ps h
      match t, hshape with
      | [], _ =>
          simp only [parse_srcset_pairs, Option.some.injEq] at h
          subst h; simp
      | [x], _ =>
          simp only [parse_srcset_pairs, Option.some.injEq] at h
          subst h; simp
      | u :: d :: r, hs => exact absurd rfl (hs u d r)

/-- The download loop attempts exactly the URLs up to and including the
first truthy success, and returns the download result of that URL. -/
theorem run_download_attempts_spec (dl : String → Option (List Nat × String × String))
    (l : List String) :
    (run_download_attempts dl l).2 = l.take (l.findIdx (dlSucceeds dl) + 1) ∧
    (run_download_attempts dl l).1 = ((l.find? (dlSucceeds dl)).bind dl) := by
  induction l with
  | nil => simp [run_download_attempts]
  | cons u rest ih =>
      simp only [run_download_attempts]
      cases hdl : dl u with
      | some r =>
          by_cases hr : r.1 = []
          · have hs : dlSucceeds dl u = false := by simp [dlSucceeds, hdl, hr]
            simp [hr, List.findIdx_cons, hs, List.find?_cons, hdl, ih.1, ih.2,
              List.take_succ_cons]
          · have hs : dlSucceeds dl u = true := by simp [dlSucceeds, hdl, hr]
            simp [hr, List.findIdx_cons, hs, List.find?_cons, hdl]
      | none =>
          have hs : dlSucceeds dl u = false := by simp [dlSucceeds, hdl]
          simp [List.findIdx_cons, hs, List.find?_cons, hdl, ih.1, ih.2,
            List.take_succ_cons]

/-- Transitivity of the character-list comparison. -/
theorem listCharLt_trans : ∀ as bs cs : List Char,
    listCharLt as bs = true → listCharLt bs cs = true → listCharLt as cs = true := by
  intro as
  induction as with
  | nil =>
      intro bs cs h1 h2
      cases bs with
      | nil => simp [listCharLt] at h1
      | cons b bs' =>
          cases cs with
          | nil => simp [listCharLt] at h2
          | cons c cs' => simp [listCharLt]
  | cons a as' ih =>
      intro bs cs h1 h2
      cases bs with
      | nil => simp [listCharLt] at h1
      | cons b bs' =>
          cases cs with
          | nil => simp [listCharLt] at h2
          | cons c cs' =>
              simp only [listCharLt, Bool.or_eq_true, Bool.and_eq_true, beq_iff_eq,
                decide_eq_true_eq] at h1 h2 ⊢
              rcases h1 with h1 | ⟨rfl, h1'⟩
              · rcases h2 with h2 | ⟨rfl, h2'⟩
                · exact Or.inl (lt_trans h1 h2)
                · exact Or.inl h1
              · rcases h2 with h2 | ⟨rfl, h2'⟩
                · exact Or.inl h2
                · exact Or.inr ⟨rfl, ih _ _ h1' h2'⟩

/-- Connexity of the character-list comparison. -/
theorem listCharLt_connex : ∀ as bs : List Char,
    as = bs ∨ listCharLt as bs = true ∨ listCharLt bs as = true := by
  intro as
  induction as with
  | nil =>
      intro bs
      cases bs with
      | nil => exact Or.inl rfl
      | cons b bs' => exact Or.inr (Or.inl (by simp [listCharLt]))
  | cons a as' ih =>
      intro bs
      cases bs with
      | nil => exact Or.inr (Or.inr (by simp [listCharLt]))
      | cons b bs' =>
          rcases lt_trichotomy a b with h | rfl | h
          · exact Or.inr (Or.inl (by simp [listCharLt, h]))
          · rcases ih bs' with rfl | h | h
            · exact Or.inl rfl
            · exact Or.inr (Or.inl (by simp [listCharLt, h]))
            · exact Or.inr (Or.inr (by simp [listCharLt, h]))
          · exact Or.inr (Or.inr (by simp [listCharLt, h]))

/-- Transitivity of the modelled Python string order. -/
theorem pyStrLe_trans : ∀ a b c : String,
    pyStrLe a b = true → pyStrLe b c = true → pyStrLe a c = true := by
  intro a b c h1 h2
  simp only [pyStrLe, Bool.or_eq_true, beq_iff_eq] at h1 h2 ⊢
  rcases h1 with rfl | h1
  · exact h2
  · rcases h2 with rfl | h2
    · exact Or.inr h1
    · exact Or.inr (listCharLt_trans _ _ _ h1 h2)

/-- Totality of the modelled Python string order. -/
theorem pyStrLe_total : ∀ a b : String, pyStrLe a b = true ∨ pyStrLe b a = true := by
  intro a b
  rcases listCharLt_connex a.toList b.toList with h | h | h
  · have hab : a = b := by
      cases a; cases b
      exact congrArg String.mk (by simpa [String.toList] using h)
    left; simp [pyStrLe, hab]
  · left
    simp only [pyStrLe, Bool.or_eq_true]
    exact Or.inr h
  · right
    simp only [pyStrLe, Bool.or_eq_true]
    exact Or.inr h

/-- The weighted attempt order is sorted under the heap key comparison. -/
theorem weighted_order_sorted (pairs : List (String × Nat)) :
    (weighted_order pairs).Pairwise heapKeyLe := by
  haveI : IsTrans (Nat × String) heapKeyLe := ⟨by
    intro a b c h1 h2
    rcases h1 with h1 | ⟨h1, h1s⟩ <;> rcases h2 with h2 | ⟨h2, h2s⟩
    · exact Or.inl (lt_trans h2 h1)
    · exact Or.inl (h2 ▸ h1)
    · exact Or.inl (h1 ▸ h2)
    · exact Or.inr ⟨h1.trans h2, pyStrLe_trans _ _ _ h1s h2s⟩⟩
  haveI : IsTotal (Nat × String) heapKeyLe := ⟨by
    intro a b
    rcases lt_trichotomy a.1 b.1 with h | h | h
    · exact Or.inr (Or.inl h)
    · rcases pyStrLe_total a.2 b.2 with hs | hs
      · exact Or.inl (Or.inr ⟨h, hs⟩)
      · exact Or.inr (Or.inr ⟨h.symm, hs⟩)
    · exact Or.inl (Or.inl h)⟩
  exact List.sorted_insertionSort heapKeyLe _

/-- The weighted attempt order is a permutation of the parsed pairs. -/
theorem weighted_order_perm (pairs : List (String × Nat)) :
    (weighted_order pairs).Perm (pairs.map fun p => (p.2, p.1)) :=
  List.perm_insertionSort heapKeyLe _

/-- Weights along the weighted attempt order never increase. -/
theorem weighted_order_weights_sorted (pairs : List (String × Nat)) :
    ((weighted_order pairs).map fun q => q.1).Pairwise (fun a b : Nat => b ≤ a) := by
  rw [List.pairwise_map]
  refine (weighted_order_sorted pairs).imp ?_
  intro a b h
  rcases h with h | ⟨h, _⟩
  · omega
  · omega

theorem try_museum_urls_invalid_grows (ex : String → Option (String × String)) :
    ∀ (urls : List String) (inv : List String),
      ∃ ext, (try_museum_urls ex inv urls).2.1 = inv ++ ext := by
  intro urls
  induction urls with
  | nil => intro inv; exact ⟨[], by simp [try_museum_urls]⟩
  | cons url rest ih =>
      intro inv
      by_cases hmem : url ∈ inv
      · simpa [try_museum_urls, hmem] using ih inv
      · cases hfm : find_museum url with
        | none => simpa [try_museum_urls, hmem, hfm] using ih inv
        | some m =>
            cases hex : ex url with
            | none =>
                obtain ⟨ext, hext⟩ := ih (inv ++ [url])
                exact ⟨url :: ext, by simp [try_museum_urls, hmem, hfm, hex, hext]⟩
            | some r =>
                by_cases hr : r.1 = ""
                · obtain ⟨ext, hext⟩ := ih (inv ++ [url])
                  exact ⟨url :: ext, by simp [try_museum_urls, hmem, hfm, hex, hr, hext]⟩
                · exact ⟨[], by simp [try_museum_urls, hmem, hfm, hex, hr]⟩

theorem try_museum_urls_trace_fresh (ex : String → Option (String × String)) :
    ∀ (urls : List String) (inv : List String) (u : String),
      u ∈ (try_museum_urls ex inv urls).2.2 → u ∉ inv := by
  intro urls
  induction urls with
  | nil => intro inv u hu; simp [try_museum_urls] at hu
  | cons url rest ih =>
      intro inv u hu
      by_cases hmem : url ∈ inv
      · simp only [try_museum_urls, if_pos hmem] at hu
        exact ih inv u hu
      · cases hfm : find_museum url with
        | none =>
            simp only [try_museum_urls, if_neg hmem, hfm] at hu
            exact ih inv u hu
        | some m =>
            cases hex : ex url with
            | none =>
                simp only [try_museum_urls, if_neg hmem, hfm, hex, List.mem_cons] at hu
                rcases hu with rfl | hu
                · exact hmem
                · have := ih (inv ++ [url]) u hu
                  intro hc; exact this (by simp [hc])
            | some r =>
                by_cases hr : r.1 = ""
                · simp only [try_museum_urls, if_neg hmem, hfm, hex, hr, ne_eq,
                    not_true_eq_false, ite_false, List.mem_cons] at hu
                  rcases hu with rfl | hu
                  · exact hmem
                  · have := ih (inv ++ [url]) u hu
                    intro hc; exact this (by simp [hc])
                · simp only [try_museum_urls, if_neg hmem, hfm, hex, ne_eq, hr,
                    not_false_eq_true, ite_true, List.mem_singleton] at hu
                  subst hu; exact hmem

theorem try_remaining_urls_trace_fresh (ex : String → Option (String × String)) :
    ∀ (urls : List String) (inv : List String) (u : String),
      u ∈ (try_remaining_urls ex inv urls).2 → u ∉ inv := by
  intro urls
  induction urls with
  | nil => intro inv u hu; simp [try_remaining_urls] at hu
  | cons url rest ih =>
      intro inv u hu
      by_cases hmem : url ∈ inv
      · simp only [try_remaining_urls, if_pos hmem] at hu
        exact ih inv u hu
      · cases hex : ex url with
        | none =>
            simp only [try_remaining_urls, if_neg hmem, hex, List.mem_cons] at hu
            rcases hu with rfl | hu
            · exact hmem
            · exact ih inv u hu
        | some r =>
            by_cases hr : r.1 = ""
            · simp only [try_remaining_urls, if_neg hmem, hex, hr, ne_eq,
                not_true_eq_false, ite_false, List.mem_cons] at hu
              rcases hu with rfl | hu
              · exact hmem
              · exact ih inv u hu
            · simp only [try_remaining_urls, if_neg hmem, hex, ne_eq, hr,
                not_false_eq_true, ite_true, List.mem_singleton] at hu
              subst hu; exact hmem

theorem try_museum_urls_success_last (ex : String → Option (String × String)) :
    ∀ (urls : List String) (inv : List String) (p iu m : String),
      (try_museum_urls ex inv urls).1 = some (p, iu, m) →
      ∃ u, (try_museum_urls ex inv urls).2.2.getLast? = some u ∧
        (find_museum u).map (fun q => q.2) = some m ∧ ex u = some (p, iu) := by
  intro urls
  induction urls with
  | nil => intro inv p iu m h; simp [try_museum_urls] at h
  | cons url rest ih =>
      intro inv p iu m h
      by_cases hmem : url ∈ inv
      · simp only [try_museum_urls, if_pos hmem] at h ⊢
        exact ih inv p iu m h
      · cases hfm : find_museum url with
        | none =>
            simp only [try_museum_urls, if_neg hmem, hfm] at h ⊢
            exact ih inv p iu m h
        | some m0 =>
            cases hex : ex url with
            | none =>
                simp only [try_museum_urls, if_neg hmem, hfm, hex] at h ⊢
                obtain ⟨u, hlast, hfu, hexu⟩ := ih (inv ++ [url]) p iu m h
                refine ⟨u, ?_, hfu, hexu⟩
                cases ht : (try_museum_urls ex (inv ++ [url]) rest).2.2 with
                | nil => rw [ht] at hlast; simp at hlast
                | cons v vs => rw [ht] at hlast; rw [List.getLast?_cons_cons]; exact hlast
            | some r =>
                by_cases hr : r.1 = ""
                · simp only [try_museum_urls, if_neg hmem, hfm, hex, hr, ne_eq,
                    not_true_eq_false, ite_false] at h ⊢
                  obtain ⟨u, hlast, hfu, hexu⟩ := ih (inv ++ [url]) p iu m h
                  refine ⟨u, ?_, hfu, hexu⟩
                  cases ht : (try_museum_urls ex (inv ++ [url]) rest).2.2 with
                  | nil => rw [ht] at hlast; simp at hlast
                  | cons v vs => rw [ht] at hlast; rw [List.getLast?_cons_cons]; exact hlast
                · simp only [try_museum_urls, if_neg hmem, hfm, hex, ne_eq, hr,
                    not_false_eq_true, ite_true, Option.some.injEq, Prod.mk.injEq] at h ⊢
                  obtain ⟨hp, hiu, hm⟩ := h
                  refine ⟨url, by simp, ?_, ?_⟩
                  · simp [hfm, hm]
                  · rw [hex, ← hp, ← hiu]

theorem heapLt_irrefl (a : ℚ × Nat) : ¬ heapLt a a := by
  simp [heapLt]

theorem heapLt_trans {a b c : ℚ × Nat} (h1 : heapLt a b) (h2 : heapLt b c) : heapLt a c := by
  rcases h1 with h1 | ⟨h1, h1i⟩ <;> rcases h2 with h2 | ⟨h2, h2i⟩
  · exact Or.inl (lt_trans h2 h1)
  · exact Or.inl (h2 ▸ h1)
  · exact Or.inl (h1 ▸ h2)
  · exact Or.inr ⟨h1.trans h2, lt_trans h1i h2i⟩

theorem heapLt_trichotomy (a b : ℚ × Nat) : heapLt a b ∨ a = b ∨ heapLt b a := by
  rcases lt_trichotomy a.1 b.1 with h | h | h
  · exact Or.inr (Or.inr (Or.inl h))
  · rcases lt_trichotomy a.2 b.2 with hi | hi | hi
    · exact Or.inl (Or.inr ⟨h, hi⟩)
    · exact Or.inr (Or.inl (Prod.ext h hi))
    · exact Or.inr (Or.inr (Or.inr ⟨h.symm, hi⟩))
  · exact Or.inl (Or.inl h)

theorem heapMin_fold_spec (xs : List (ℚ × Nat)) :
    ∀ x : ℚ × Nat,
      (xs.foldl (fun best c => if heapLt c best then c else best) x) ∈ x :: xs ∧
      (∀ c ∈ x :: xs, ¬ heapLt c (xs.foldl (fun best c => if heapLt c best then c else best) x)) := by
  induction xs with
  | nil =>
      intro x
      refine ⟨by simp, ?_⟩
      intro c hc
      simp only [List.foldl_nil]
      simp only [List.mem_singleton] at hc
      subst hc
      exact heapLt_irrefl c
  | cons y ys ih =>
      intro x
      simp only [List.foldl_cons]
      by_cases h : heapLt y x
      · rw [if_pos h]
        obtain ⟨hmem, hmin⟩ := ih y
        constructor
        · rcases List.mem_cons.mp hmem with heq | hm
          · rw [heq]; exact List.mem_cons_of_mem _ (List.mem_cons_self _ _)
          · exact List.mem_cons_of_mem _ (List.mem_cons_of_mem _ hm)
        · intro c hc
          rcases List.mem_cons.mp hc with rfl | hc'
          · intro hx
            exact hmin y (List.mem_cons_self _ _) (heapLt_trans h hx)
          · exact hmin c hc'
      · rw [if_neg h]
        obtain ⟨hmem, hmin⟩ := ih x
        constructor
        · rcases List.mem_cons.mp hmem with heq | hm
          · rw [heq]; exact List.mem_cons_self _ _
          · exact List.mem_cons_of_mem _ (List.mem_cons_of_mem _ hm)
        · intro c hc
          rcases List.mem_cons.mp hc with rfl | hc'
          · exact hmin c (List.mem_cons_self _ _)
          · rcases List.mem_cons.mp hc' with rfl | hc''
            · intro hy
              rcases heapLt_trichotomy c x with hyx | heq | hxy
              · exact h hyx
              · rw [heq] at hy
                exact hmin x (List.mem_cons_self _ _) hy
              · exact hmin x (List.mem_cons_self _ _) (heapLt_trans hxy hy)
            · exact hmin c (List.mem_cons_of_mem _ hc'')

theorem heapMin_spec (l : List (ℚ × Nat)) :
    (heapMin l = none ↔ l = []) ∧
    (∀ m, heapMin l = some m → m ∈ l ∧ ∀ c ∈ l, ¬ heapLt c m) := by
  cases l with
  | nil => simp [heapMin]
  | cons x xs =>
      constructor
      · simp [heapMin]
      · intro m hm
        simp only [heapMin, Option.some.injEq] at hm
        subst hm
        exact heapMin_fold_spec xs x

theorem mem_candidatesFrom (boxes : List (Option Box)) :
    ∀ (i : Nat) (a : ℚ) (j : Nat),
      ((a, j) ∈ candidatesFrom i boxes ↔
        ∃ k wh, boxes[k]? = some (some wh) ∧ j = i + k ∧ a = wh.1 * wh.2 ∧ a ≠ 0) := by
  induction boxes with
  | nil => intro i a j; simp [candidatesFrom]
  | cons b rest ih =>
      intro i a j
      cases b with
      | none =>
          simp only [candidatesFrom]
          rw [ih (i + 1)]
          constructor
          · rintro ⟨k, wh, hk, hj, ha, hne⟩
            exact ⟨k + 1, wh, by simpa using hk, by omega, ha, hne⟩
          · rintro ⟨k, wh, hk, hj, ha, hne⟩
            cases k with
            | zero => simp at hk
            | succ k' => exact ⟨k', wh, by simpa using hk, by omega, ha, hne⟩
      | some wh0 =>
          by_cases hz : wh0.1 * wh0.2 = 0
          · simp only [candidatesFrom, if_pos hz]
            rw [ih (i + 1)]
            constructor
            · rintro ⟨k, wh, hk, hj, ha, hne⟩
              exact ⟨k + 1, wh, by simpa using hk, by omega, ha, hne⟩
            · rintro ⟨k, wh, hk, hj, ha, hne⟩
              cases k with
              | zero =>
                  simp only [List.getElem?_cons_zero, Option.some.injEq] at hk
                  exact absurd (by rw [ha, ← hk]; exact hz) hne
              | succ k' => exact ⟨k', wh, by simpa using hk, by omega, ha, hne⟩
          · simp only [candidatesFrom, if_neg hz, List.mem_cons]
            constructor
            · rintro (heq | hmem)
              · obtain ⟨ha, hj⟩ := Prod.mk.injEq .. |>.mp heq
                exact ⟨0, wh0, by simp, by omega, ha, by rw [ha]; exact hz⟩
              · rw [ih (i + 1)] at hmem
                obtain ⟨k, wh, hk, hj, ha, hne⟩ := hmem
                exact ⟨k + 1, wh, by simpa using hk, by omega, ha, hne⟩
            · rintro ⟨k, wh, hk, hj, ha, hne⟩
              cases k with
              | zero =>
                  left
                  simp only [List.getElem?_cons_zero, Option.some.injEq] at hk
                  rw [← hk] at ha
                  simp only [Prod.mk.injEq]
                  exact ⟨ha, by omega⟩
              | succ k' =>
                  right
                  rw [ih (i + 1)]
                  exact ⟨k', wh, by simpa using hk, by omega, ha, hne⟩

theorem foldl_decimal (ds : List Nat) :
    ∀ a : Nat, ds.foldl (fun n d => 10 * n + d) a =
      a * 10 ^ ds.length + Nat.ofDigits 10 ds.reverse := by
  induction ds with
  | nil => intro a; simp [Nat.ofDigits]
  | cons d t ih =>
      intro a
      simp only [List.foldl_cons, List.reverse_cons, List.length_cons]
      rw [ih (10 * a + d), Nat.ofDigits_append]
      simp only [List.length_reverse, Nat.ofDigits_singleton]
      ring

theorem pyIntOfDigits_eq_ofDigits (s : String) :
    pyIntOfDigits s =
      Nat.ofDigits 10 (((s.toList.filter Char.isDigit).map fun c => c.toNat - 48).reverse) := by
  unfold pyIntOfDigits
  rw [← List.foldl_map (fun c : Char => c.toNat - 48) (fun n d => 10 * n + d)]
  rw [foldl_decimal]
  simp

/-- C1 -/
theorem tier_short_circuit (ex : String → Option (String × String)) (plaque u0 : String)
    (rest : List String) :
    (∀ r, (try_wikipedia_urls ex (u0 :: rest)).1 = some r →
      process_a_painting ex plaque (.urlList (u0 :: rest)) =
        (⟨plaque, .path r.1, u0, detect_museum_from_urls (u0 :: rest), r.2⟩,
          (try_wikipedia_urls ex (u0 :: rest)).2.2)) ∧
    ((try_wikipedia_urls ex (u0 :: rest)).1 = none →
      ∀ r, (try_museum_urls ex (try_wikipedia_urls ex (u0 :: rest)).2.1 (u0 :: rest)).1 = some r →
        process_a_painting ex plaque (.urlList (u0 :: rest)) =
          (⟨plaque, .path r.1, u0, r.2.2, r.2.1⟩,
            (try_wikipedia_urls ex (u0 :: rest)).2.2 ++
            (try_museum_urls ex (try_wikipedia_urls ex (u0 :: rest)).2.1 (u0 :: rest)).2.2)) := by
  constructor
  · intro r h
    simp only [process_a_painting, h]
  · intro h1 r h2
    simp only [process_a_painting, h1, h2]

/-- C1 witness -/
theorem tier_short_circuit_witness :
    process_a_painting (fun _ => some ("p.jpg", "http://i")) "plq"
        (.urlList ["https://en.wikipedia.org/wiki/A"]) =
      (⟨"plq", .path "p.jpg", "https://en.wikipedia.org/wiki/A",
          detect_museum_from_urls ["https://en.wikipedia.org/wiki/A"], "http://i"⟩,
        (try_wikipedia_urls (fun _ => some ("p.jpg", "http://i"))
          ["https://en.wikipedia.org/wiki/A"]).2.2) :=
  (tier_short_circuit (fun _ => some ("p.jpg", "http://i")) "plq"
    "https://en.wikipedia.org/wiki/A" []).1 ("p.jpg", "http://i") rfl

/-- C2 -/
theorem no_candidates_entry_guard (ex : String → Option (String × String))
    (plaque s : String) :
    process_a_painting ex plaque (.errorString s) = (no_urls_record plaque, []) ∧
    process_a_painting ex plaque (.urlList []) = (no_urls_record plaque, []) ∧
    (no_urls_record plaque).srcUrl = "No image was downloaded (no urls were found)." ∧
    (no_urls_record plaque).location = "Unknown location" :=
  ⟨rfl, rfl, rfl, rfl⟩

/-- C3 -/
theorem invalid_urls_monotone (ex : String → Option (String × String)) (urls : List String) :
    (∃ ext, (try_museum_urls ex (try_wikipedia_urls ex urls).2.1 urls).2.1 =
      (try_wikipedia_urls ex urls).2.1 ++ ext) ∧
    (∀ u ∈ (try_museum_urls ex (try_wikipedia_urls ex urls).2.1 urls).2.2,
      u ∉ (try_wikipedia_urls ex urls).2.1) ∧
    (∀ u ∈ (try_remaining_urls ex
        (try_museum_urls ex (try_wikipedia_urls ex urls).2.1 urls).2.1 urls).2,
      u ∉ (try_museum_urls ex (try_wikipedia_urls ex urls).2.1 urls).2.1) :=
  ⟨try_museum_urls_invalid_grows ex urls _,
    fun u hu => try_museum_urls_trace_fresh ex urls _ u hu,
    fun u hu => try_remaining_urls_trace_fresh ex urls _ u hu⟩

/-- C3 witness -/
theorem invalid_urls_monotone_witness :
    "https://moma.org/a" ∉ (try_wikipedia_urls (fun _ => none)
      ["https://en.wikipedia.org/wiki/A", "https://moma.org/a"]).2.1 :=
  (invalid_urls_monotone (fun _ => none)
    ["https://en.wikipedia.org/wiki/A", "https://moma.org/a"]).2.1
    "https://moma.org/a" (by decide)

/-- C5 -/
theorem source_url_first (ex : String → Option (String × String)) (plaque u0 : String)
    (rest : List String) (p : String) :
    (process_a_painting ex plaque (.urlList (u0 :: rest))).1.img = .path p →
    (process_a_painting ex plaque (.urlList (u0 :: rest))).1.srcUrl = u0 := by
  intro h
  cases h1 : (try_wikipedia_urls ex (u0 :: rest)).1 with
  | some r => simp only [process_a_painting, h1]
  | none =>
      cases h2 : (try_museum_urls ex (try_wikipedia_urls ex (u0 :: rest)).2.1 (u0 :: rest)).1 with
      | some r => simp only [process_a_painting, h1, h2]
      | none =>
          cases h3 : (try_remaining_urls ex
              (try_museum_urls ex (try_wikipedia_urls ex (u0 :: rest)).2.1 (u0 :: rest)).2.1
              (u0 :: rest)).1 with
          | some r => simp only [process_a_painting, h1, h2, h3]
          | none =>
              simp only [process_a_painting, h1, h2, h3] at h
              exact absurd h (by simp)

/-- C5 witness -/
theorem source_url_first_witness :
    (process_a_painting (fun _ => some ("q.jpg", "http://j")) "plq2"
      (.urlList ["https://en.wikipedia.org/wiki/B", "https://x.example/y"])).1.srcUrl =
      "https://en.wikipedia.org/wiki/B" :=
  source_url_first (fun _ => some ("q.jpg", "http://j")) "plq2"
    "https://en.wikipedia.org/wiki/B" ["https://x.example/y"] "q.jpg" (by rfl)

/-- C6 -/
theorem download_success_characterization
    (urljoin : String → String → String) (guess_extension : String → Option String)
    (fetch : String → FetchResult) (url base_url : String) :
    (∀ status ct body, fetch (urljoin base_url url) = .response status ct body →
      status = 200 → strStartsWith ct "image/" = true →
      download_image_from_url urljoin guess_extension fetch url base_url =
        (some body, some (urljoin base_url url),
          some ((guess_extension (pySplitSemiHead ct)).getD ".jpg"))) ∧
    ((¬ ∃ status ct body, fetch (urljoin base_url url) = .response status ct body ∧
        status = 200 ∧ strStartsWith ct "image/" = true) →
      download_image_from_url urljoin guess_extension fetch url base_url =
        (none, none, none)) := by
  constructor
  · intro status ct body hf h200 hct
    simp [download_image_from_url, hf, h200, hct]
  · intro hne
    cases hf : fetch (urljoin base_url url) with
    | clientError => simp [download_image_from_url, hf]
    | timeoutError => simp [download_image_from_url, hf]
    | response s ct b =>
        simp only [download_image_from_url, hf]
        rw [if_neg]
        rintro ⟨h200, hct⟩
        exact hne ⟨s, ct, b, hf, h200, hct⟩

/-- C6 witness -/
theorem download_success_characterization_witness :
    download_image_from_url (fun b u => b ++ u) (fun _ => some ".png")
      (fun _ => .response 200 "image/png" [7]) "a" "b/" =
      (some [7], some "b/a", some ".png") :=
  (download_success_characterization (fun b u => b ++ u) (fun _ => some ".png")
    (fun _ => .response 200 "image/png" [7]) "a" "b/").1 200 "image/png" [7] rfl rfl rfl

/-- C7 counterexample -/
theorem location_label_counterexample :
    (process_a_painting
      (fun u => if u = "https://www.moma.org/y" then some ("img.jpg", "http://img") else none)
      "plaque" (.urlList ["https://www.artic.edu/x", "https://www.moma.org/y"])).1.location =
      "Museum of Modern Art (MoMA)" ∧
    detect_museum_from_urls ["https://www.artic.edu/x", "https://www.moma.org/y"] =
      "The Art Institute of Chicago" ∧
    ("Museum of Modern Art (MoMA)" : String) ≠ "The Art Institute of Chicago" :=
  ⟨rfl, rfl, by decide⟩

/-- C7 amended -/
theorem location_label_amended (ex : String → Option (String × String))
    (plaque u0 : String) (rest : List String) :
    ((∀ u ∈ (u0 :: rest), find_museum u = none) →
      detect_museum_from_urls (u0 :: rest) = "Unknown location") ∧
    (∀ r, (try_wikipedia_urls ex (u0 :: rest)).1 = some r →
      (process_a_painting ex plaque (.urlList (u0 :: rest))).1.location =
        detect_museum_from_urls (u0 :: rest)) ∧
    ((try_wikipedia_urls ex (u0 :: rest)).1 = none →
      ∀ r, (try_museum_urls ex (try_wikipedia_urls ex (u0 :: rest)).2.1 (u0 :: rest)).1 = some r →
        (process_a_painting ex plaque (.urlList (u0 :: rest))).1.location = r.2.2 ∧
        ∃ u, (try_museum_urls ex (try_wikipedia_urls ex (u0 :: rest)).2.1
            (u0 :: rest)).2.2.getLast? = some u ∧
          (find_museum u).map (fun q => q.2) = some r.2.2) ∧
    ((try_wikipedia_urls ex (u0 :: rest)).1 = none →
      (try_museum_urls ex (try_wikipedia_urls ex (u0 :: rest)).2.1 (u0 :: rest)).1 = none →
      (process_a_painting ex plaque (.urlList (u0 :: rest))).1.location =
        detect_museum_from_urls (u0 :: rest)) := by
  refine ⟨?_, ?_, ?_, ?_⟩
  · intro hall
    unfold detect_museum_from_urls
    have : (u0 :: rest).findSome? (fun url => (find_museum url).map fun p => p.2) = none := by
      rw [List.findSome?_eq_none_iff]
      intro x hx
      rw [hall x hx]
      rfl
    rw [this]
  · intro r h
    simp only [process_a_painting, h]
  · intro h1 r h2
    constructor
    · simp only [process_a_painting, h1, h2]
    · obtain ⟨u, hlast, hmap, hex⟩ :=
        try_museum_urls_success_last ex (u0 :: rest)
          (try_wikipedia_urls ex (u0 :: rest)).2.1 r.1 r.2.1 r.2.2 h2
      exact ⟨u, hlast, hmap⟩
  · intro h1 h2
    cases h3 : (try_remaining_urls ex
        (try_museum_urls ex (try_wikipedia_urls ex (u0 :: rest)).2.1 (u0 :: rest)).2.1
        (u0 :: rest)).1 with
    | some r => simp only [process_a_painting, h1, h2, h3]
    | none => simp only [process_a_painting, h1, h2, h3]

/-- C7 amended witness -/
theorem location_label_amended_witness :
    (process_a_painting (fun _ => none) "t" (.urlList ["https://a.example/z"])).1.location =
      detect_museum_from_urls ["https://a.example/z"] :=
  (location_label_amended (fun _ => none) "t" "https://a.example/z" []).2.2.2 rfl rfl

/-- C4 counterexample -/
theorem weighted_attempt_counterexample :
    srcset_phase (fun _ => none) "x.jpg 5w, y.jpg 5w" = .ok (none, ["x.jpg", "y.jpg"]) ∧
    parse_srcset_pairs (srcset_tokens "x.jpg 5w, y.jpg 5w") =
      some [("x.jpg", 5), ("y.jpg", 5)] ∧
    weighted_urls [("x.jpg", 5), ("y.jpg", 5)] = ["x.jpg", "y.jpg"] ∧
    (weighted_order [("x.jpg", 5), ("y.jpg", 5)]).map (fun q => q.1) = [5, 5] ∧
    ¬ List.Chain' (fun a b : Nat => a > b) [5, 5] :=
  ⟨rfl, rfl, rfl, rfl, fun h => absurd (List.chain'_cons.mp h).1 (by omega)⟩

/-- C4 amended -/
theorem weighted_attempt_descending (dl : String → Option (List Nat × String × String))
    (tokens : List String) (pairs : List (String × Nat))
    (hp : parse_srcset_pairs tokens = some pairs)
    (hw : ¬ 2 * pairs.length < tokens.length) :
    srcset_phase_tokens dl tokens = .ok (run_download_attempts dl (weighted_urls pairs)) ∧
    ((weighted_order pairs).map (fun q => q.1)).Pairwise (fun a b : Nat => b ≤ a) ∧
    (weighted_order pairs).Pairwise heapKeyLe ∧
    (weighted_order pairs).Perm (pairs.map fun p => (p.2, p.1)) ∧
    (run_download_attempts dl (weighted_urls pairs)).2 =
      (weighted_urls pairs).take ((weighted_urls pairs).findIdx (dlSucceeds dl) + 1) ∧
    (run_download_attempts dl (weighted_urls pairs)).1 =
      ((weighted_urls pairs).find? (dlSucceeds dl)).bind dl ∧
    weighted_urls [("a.jpg", 100), ("b.jpg", 800), ("c.jpg", 400)] =
      ["b.jpg", "c.jpg", "a.jpg"] ∧
    parse_srcset_pairs (srcset_tokens "a.jpg 100w, b.jpg 800w, c.jpg 400w") =
      some [("a.jpg", 100), ("b.jpg", 800), ("c.jpg", 400)] := by
  refine ⟨?_, weighted_order_weights_sorted pairs, weighted_order_sorted pairs,
    weighted_order_perm pairs, (run_download_attempts_spec dl _).1,
    (run_download_attempts_spec dl _).2, rfl, rfl⟩
  simp [srcset_phase_tokens, hp, hw]

/-- C4 amended witness -/
theorem weighted_attempt_descending_witness :
    srcset_phase_tokens (fun _ => none) (srcset_tokens "a.jpg 100w, b.jpg 800w, c.jpg 400w") =
      .ok (run_download_attempts (fun _ => none)
        (weighted_urls [("a.jpg", 100), ("b.jpg", 800), ("c.jpg", 400)])) :=
  (weighted_attempt_descending (fun _ => none)
    (srcset_tokens "a.jpg 100w, b.jpg 800w, c.jpg 400w")
    [("a.jpg", 100), ("b.jpg", 800), ("c.jpg", 400)] rfl (by decide)).1

/-- C8 -/
theorem malformed_srcset_fallback (dl : String → Option (List Nat × String × String))
    (tokens : List String) (pairs : List (String × Nat))
    (hp : parse_srcset_pairs tokens = some pairs) :
    2 * pairs.length ≤ tokens.length ∧
    (2 * pairs.length < tokens.length →
      srcset_phase_tokens dl tokens =
        .ok (run_download_attempts dl (tokens.reverse.filter fun u => strIn "/" u)) ∧
      (run_download_attempts dl (tokens.reverse.filter fun u => strIn "/" u)).2 =
        (tokens.reverse.filter fun u => strIn "/" u).take
          ((tokens.reverse.filter fun u => strIn "/" u).findIdx (dlSucceeds dl) + 1) ∧
      (run_download_attempts dl (tokens.reverse.filter fun u => strIn "/" u)).1 =
        ((tokens.reverse.filter fun u => strIn "/" u).find? (dlSucceeds dl)).bind dl) ∧
    (¬ 2 * pairs.length < tokens.length →
      srcset_phase_tokens dl tokens = .ok (run_download_attempts dl (weighted_urls pairs))) := by
  refine ⟨parse_srcset_pairs_le tokens pairs hp, ?_, ?_⟩
  · intro hlt
    exact ⟨by simp [srcset_phase_tokens, hp, hlt],
      (run_download_attempts_spec dl _).1, (run_download_attempts_spec dl _).2⟩
  · intro hge
    simp [srcset_phase_tokens, hp, hge]

/-- C8 witness -/
theorem malformed_srcset_fallback_witness :
    srcset_phase_tokens (fun _ => none) (srcset_tokens "img/a.jpg 100w img/b.jpg") =
      .ok (run_download_attempts (fun _ => none)
        ((srcset_tokens "img/a.jpg 100w img/b.jpg").reverse.filter fun u => strIn "/" u)) :=
  ((malformed_srcset_fallback (fun _ => none) (srcset_tokens "img/a.jpg 100w img/b.jpg")
    [("img/a.jpg", 100)] rfl).2.1 (by decide)).1

/-- C10 -/
theorem descriptor_acceptance (u d : String) (rest : List String) (c : Char)
    (hc : d.toList.getLast? = some c) :
    (((c == 'w' || c == 'x') && d.toList.dropLast.any Char.isDigit) = true →
      parse_srcset_pairs (u :: d :: rest) =
        (parse_srcset_pairs rest).map fun ps => (u, pyIntOfDigits d) :: ps) ∧
    (¬ ((c == 'w' || c == 'x') && d.toList.dropLast.any Char.isDigit) = true →
      parse_srcset_pairs (u :: d :: rest) = parse_srcset_pairs (d :: rest)) ∧
    pyIntOfDigits d =
      Nat.ofDigits 10 (((d.toList.filter Char.isDigit).map fun ch => ch.toNat - 48).reverse) ∧
    pyIntOfDigits "1.5x" = 15 ∧ pyIntOfDigits "2x" = 2 ∧
    parse_srcset_pairs (srcset_tokens "p/a.jpg 1.5x, p/b.jpg 2x") =
      some [("p/a.jpg", 15), ("p/b.jpg", 2)] ∧
    weighted_urls [("p/a.jpg", 15), ("p/b.jpg", 2)] = ["p/a.jpg", "p/b.jpg"] := by
  refine ⟨?_, ?_, pyIntOfDigits_eq_ofDigits d, rfl, rfl, rfl, rfl⟩
  · intro hacc
    simp only [parse_srcset_pairs, hc, if_pos hacc]
  · intro hacc
    simp only [parse_srcset_pairs, hc, if_neg hacc]

/-- C10 witness -/
theorem descriptor_acceptance_witness :
    parse_srcset_pairs ["a.jpg", "800w"] =
      (parse_srcset_pairs []).map (fun ps => ("a.jpg", pyIntOfDigits "800w") :: ps) :=
  (descriptor_acceptance "a.jpg" "800w" [] 'w' rfl).1 rfl

/-- C9 -/
theorem largest_candidate_selection (resolve : Nat → Option (List Nat × String × String))
    (convert : List Nat → String → List Nat × String) (img_name : String)
    (boxes : List (Option Box)) :
    (∀ (a : ℚ) (i : Nat), heapMin (get_img_candidates boxes) = some (a, i) →
      ∃ wh : Box, boxes[i]? = some (some wh) ∧ a = wh.1 * wh.2 ∧ a ≠ 0 ∧
        (∀ (j : Nat) (wh2 : Box), boxes[j]? = some (some wh2) →
          wh2.1 * wh2.2 ≠ 0 → wh2.1 * wh2.2 ≤ a) ∧
        (∀ (j : Nat) (wh2 : Box), boxes[j]? = some (some wh2) →
          wh2.1 * wh2.2 = a → i ≤ j)) ∧
    (heapMin (get_img_candidates boxes) = none →
      get_img resolve convert img_name boxes = (none, none)) ∧
    (heapMin (get_img_candidates boxes) = none ↔
      ∀ (j : Nat) (wh : Box), boxes[j]? = some (some wh) → wh.1 * wh.2 = 0) := by
  refine ⟨?_, ?_, ?_⟩
  · intro a i h
    obtain ⟨hmem, hmin⟩ := (heapMin_spec _).2 (a, i) h
    rw [get_img_candidates, mem_candidatesFrom] at hmem
    obtain ⟨k, wh, hk, hj, ha, hne⟩ := hmem
    have hki : k = i := by omega
    subst hki
    refine ⟨wh, hk, ha, hne, ?_, ?_⟩
    · intro j wh2 hj2 hne2
      have hc : (wh2.1 * wh2.2, j) ∈ get_img_candidates boxes := by
        rw [get_img_candidates, mem_candidatesFrom]
        exact ⟨j, wh2, hj2, by omega, rfl, hne2⟩
      have hnl := hmin _ hc
      simp only [heapLt, not_or, not_and, not_lt] at hnl
      exact hnl.1
    · intro j wh2 hj2 heq
      have hc : (wh2.1 * wh2.2, j) ∈ get_img_candidates boxes := by
        rw [get_img_candidates, mem_candidatesFrom]
        refine ⟨j, wh2, hj2, by omega, rfl, ?_⟩
        rw [heq]; exact hne
      have hnl := hmin _ hc
      simp only [heapLt, not_or, not_and, not_lt] at hnl
      exact hnl.2 heq
  · intro h
    simp [get_img, h]
  · rw [(heapMin_spec _).1]
    constructor
    · intro hnil j wh hj2
      by_contra hz
      have hc : (wh.1 * wh.2, j) ∈ get_img_candidates boxes := by
        rw [get_img_candidates, mem_candidatesFrom]
        exact ⟨j, wh, hj2, by omega, rfl, hz⟩
      rw [hnil] at hc
      simp at hc
    · intro hall
      by_contra hne
      obtain ⟨⟨a, j⟩, hmem⟩ := List.exists_mem_of_ne_nil _ hne
      rw [get_img_candidates, mem_candidatesFrom] at hmem
      obtain ⟨k, wh, hk, hj, ha, hne0⟩ := hmem
      exact hne0 (ha.trans (hall k wh hk))

/-- Concrete evaluation used by the C9 witness. -/
theorem heapMin_box_example :
    heapMin (get_img_candidates [some ((2 : ℚ), (3 : ℚ))]) = some (6, 0) := by
  norm_num [get_img_candidates, candidatesFrom, heapMin]

/-- C9 witness -/
theorem largest_candidate_selection_witness :
    (∃ wh : Box, ([some ((2 : ℚ), (3 : ℚ))] : List (Option Box))[0]? = some (some wh) ∧
      (6 : ℚ) = wh.1 * wh.2 ∧ (6 : ℚ) ≠ 0 ∧
      (∀ (j : Nat) (wh2 : Box),
        ([some ((2 : ℚ), (3 : ℚ))] : List (Option Box))[j]? = some (some wh2) →
        wh2.1 * wh2.2 ≠ 0 → wh2.1 * wh2.2 ≤ 6) ∧
      (∀ (j : Nat) (wh2 : Box),
        ([some ((2 : ℚ), (3 : ℚ))] : List (Option Box))[j]? = some (some wh2) →
        wh2.1 * wh2.2 = 6 → 0 ≤ j)) ∧
    get_img (fun _ => none) (fun b e => (b, e)) "n" [] = (none, none) :=
  ⟨(largest_candidate_selection (fun _ => none) (fun b e => (b, e)) "n"
      [some ((2 : ℚ), (3 : ℚ))]).1 6 0 heapMin_box_example,
    (largest_candidate_selection (fun _ => none) (fun b e => (b, e)) "n" []).2.1 rfl⟩
